import Mathlib

/-!
Shallow embedding of the media download service (src/app.py) and proofs of
the specification claims about it.

Python strings are modelled as Lean `String` or `List Char`; Python `None`
and absent dictionary keys are modelled with `Option`; the filesystem and
the external yt-dlp engine are modelled as explicit oracles passed to the
functions that consult them.  Python's Unicode-wide `str.isalnum` table is
abstracted as a parameter `alnum : Char → Bool`, so the sanitizer theorems
hold for the real table (of which `Char.isAlphanum` is the ASCII part).
-/

/-- Characters treated as whitespace by Python's `str.strip()` / `str.split()`
(the ASCII whitespace characters; Python also strips some rare Unicode
spaces, which behave identically for every property proved here). -/
def pyIsSpace (c : Char) : Bool :=
  c == ' ' || c == '\t' || c == '\n' || c == '\r' || c == '\x0b' || c == '\x0c'

/-- Python `str.strip()` on a list of characters. -/
def pyStrip (l : List Char) : List Char :=
  ((l.dropWhile pyIsSpace).reverse.dropWhile pyIsSpace).reverse

/-- Python `str.strip()` on strings, as used throughout `app.py`. -/
def pyStripS (s : String) : String :=
  String.mk (pyStrip s.toList)

/-- Helper for `stripAnsi`: after having seen `ESC [`, consume `[0-9;]*`
followed by `m` and return the remainder, or `none` if the ANSI pattern
does not match here. -/
def ansiTail : List Char → Option (List Char)
  | [] => none
  | c :: rest =>
    if c = 'm' then some rest
    else if c.isDigit || c = ';' then ansiTail rest
    else none

theorem ansiTail_length : ∀ (l r : List Char), ansiTail l = some r → r.length < l.length := by
  intro l
  induction l with
  | nil => intro r h; simp [ansiTail] at h
  | cons c rest ih =>
    intro r h
    simp only [ansiTail] at h
    split at h
    · injection h with h2
      subst h2
      simp
    · split at h
      · exact Nat.lt_succ_of_lt (ih r h)
      · cases h

/-- The regex substitution `re.sub(r'\x1b\[[0-9;]*m', '', s)` used by
`strip_ansi` in `app.py`: scan left to right, deleting every ANSI color
escape sequence. -/
def stripAnsi : List Char → List Char
  | [] => []
  | '\x1b' :: '[' :: rest2 =>
    match h : ansiTail rest2 with
    | some rem => stripAnsi rem
    | none => '\x1b' :: stripAnsi ('[' :: rest2)
  | c :: rest => c :: stripAnsi rest
termination_by l => l.length
decreasing_by
  · have hlen := ansiTail_length _ _ h
    simp only [List.length_cons]
    omega
  · simp only [List.length_cons]
    omega
  · simp only [List.length_cons]
    omega

/-- The `strip_ansi` function of `app.py` on strings (its `None` case is
covered by callers passing `x or ""`). -/
def stripAnsiS (s : String) : String :=
  String.mk (stripAnsi s.toList)

/-- One step of the character-cleaning loop of `sanitize_filename`:
keep alphanumerics, spaces and hyphens, replace everything else by a
space. -/
def keepChar (alnum : Char → Bool) (ch : Char) : Char :=
  if alnum ch || ch == ' ' || ch == '-' then ch else ' '

/-- Python `str.split()` (split on whitespace, dropping empty pieces),
accumulator-style. -/
def wordsAux : List Char → List Char → List (List Char)
  | [], acc => if acc.isEmpty then [] else [acc.reverse]
  | c :: rest, acc =>
    if pyIsSpace c then
      if acc.isEmpty then wordsAux rest [] else acc.reverse :: wordsAux rest []
    else wordsAux rest (c :: acc)

/-- Python `str.split()` with no separator argument. -/
def pyWords (l : List Char) : List (List Char) :=
  wordsAux l []

/-- Python `"-".join(ws)`. -/
def joinHyphen : List (List Char) → List Char
  | [] => []
  | [w] => w
  | w :: ws => w ++ '-' :: joinHyphen ws

/-- Drop trailing hyphens (the right half of Python's `str.strip("-")`). -/
def dropEndHyphens (l : List Char) : List Char :=
  (l.reverse.dropWhile (fun c => c == '-')).reverse

/-- The value `base.strip("-")` computed inside `sanitize_filename`:
clean each character, split on whitespace, join with hyphens, strip
hyphens from both ends. -/
def sanitizeStripped (alnum : Char → Bool) (name : List Char) : List Char :=
  dropEndHyphens ((joinHyphen (pyWords (name.map (keepChar alnum)))).dropWhile (fun c => c == '-'))

/-- The `sanitize_filename` function of `app.py`: an empty title falls back
to `"download"`; otherwise the cleaned, hyphen-joined, hyphen-stripped
base (or `"download"` if that is empty) is truncated to 120 characters. -/
def sanitize_filename (alnum : Char → Bool) (name : List Char) : List Char :=
  if name.isEmpty then String.toList "download"
  else
    (if (sanitizeStripped alnum name).isEmpty then String.toList "download"
     else sanitizeStripped alnum name).take 120

/-- String version of `sanitize_filename`. -/
def sanitize_filenameS (alnum : Char → Bool) (s : String) : String :=
  String.mk (sanitize_filename alnum s.toList)

-- Character-level facts about the sanitizer.

theorem wordsAux_chars (Q : Char → Prop) :
    ∀ (l acc : List Char), (∀ c ∈ acc, Q c) → (∀ c ∈ l, pyIsSpace c = false → Q c) →
      ∀ w ∈ wordsAux l acc, ∀ c ∈ w, Q c := by
  intro l
  induction l with
  | nil =>
    intro acc hacc _ w hw c hc
    simp only [wordsAux] at hw
    split at hw
    · simp at hw
    · simp at hw
      subst hw
      exact hacc c (List.mem_reverse.mp hc)
  | cons a rest ih =>
    intro acc hacc hl w hw c hc
    simp only [wordsAux] at hw
    by_cases hsp : pyIsSpace a = true
    · rw [if_pos hsp] at hw
      split at hw
      · exact ih [] (by simp) (fun c2 hc2 h2 => hl c2 (List.mem_cons_of_mem a hc2) h2) w hw c hc
      · rcases List.mem_cons.mp hw with h1 | h1
        · subst h1
          exact hacc c (List.mem_reverse.mp hc)
        · exact ih [] (by simp) (fun c2 hc2 h2 => hl c2 (List.mem_cons_of_mem a hc2) h2) w h1 c hc
    · rw [if_neg hsp] at hw
      refine ih (a :: acc) ?_ (fun c2 hc2 h2 => hl c2 (List.mem_cons_of_mem a hc2) h2) w hw c hc
      intro c2 hc2
      rcases List.mem_cons.mp hc2 with h1 | h1
      · rw [h1]
        exact hl a (List.mem_cons_self a rest) (by simpa using hsp)
      · exact hacc c2 h1

theorem joinHyphen_chars : ∀ (ws : List (List Char)) (c : Char),
    c ∈ joinHyphen ws → c = '-' ∨ ∃ w ∈ ws, c ∈ w := by
  intro ws
  induction ws with
  | nil => intro c hc; simp [joinHyphen] at hc
  | cons w ws ih =>
    intro c hc
    cases ws with
    | nil =>
      right
      exact ⟨w, by simp, by simpa [joinHyphen] using hc⟩
    | cons w2 ws2 =>
      rw [show joinHyphen (w :: w2 :: ws2) = w ++ '-' :: joinHyphen (w2 :: ws2) from rfl] at hc
      rcases List.mem_append.mp hc with h1 | h1
      · right
        exact ⟨w, by simp, h1⟩
      · rcases List.mem_cons.mp h1 with h2 | h2
        · exact Or.inl h2
        · rcases ih c h2 with h3 | ⟨w3, hw3, hc3⟩
          · exact Or.inl h3
          · exact Or.inr ⟨w3, List.mem_cons_of_mem _ hw3, hc3⟩

theorem head?_dropWhile_ne (p : Char → Bool) (l : List Char) :
    ∀ c, (l.dropWhile p).head? = some c → p c = false := by
  induction l with
  | nil => intro c h; simp [List.dropWhile] at h
  | cons a rest ih =>
    intro c h
    rw [List.dropWhile_cons] at h
    split at h
    · exact ih c h
    · next hpa =>
      rw [List.head?_cons] at h
      injection h with h2
      subst h2
      simpa using hpa

theorem dropEndHyphens_decomp (l : List Char) :
    ∃ t, l = dropEndHyphens l ++ t ∧ ∀ c ∈ t, c = '-' := by
  refine ⟨(l.reverse.takeWhile (fun c => c == '-')).reverse, ?_, ?_⟩
  · conv_lhs => rw [← l.reverse_reverse,
      ← List.takeWhile_append_dropWhile (p := fun c => c == '-') (l := l.reverse)]
    rw [List.reverse_append]
    rfl
  · intro c hc
    have h1 := List.mem_takeWhile_imp (List.mem_reverse.mp hc)
    simpa using h1

theorem dropEndHyphens_getLast (l : List Char) :
    ∀ c, (dropEndHyphens l).getLast? = some c → c ≠ '-' := by
  intro c h
  unfold dropEndHyphens at h
  rw [List.getLast?_reverse] at h
  have h2 := head?_dropWhile_ne _ _ c h
  simpa using h2

theorem stripBoth_head (b : List Char) :
    ∀ c, (dropEndHyphens (b.dropWhile (fun x => x == '-'))).head? = some c → c ≠ '-' := by
  intro c h
  obtain ⟨t, ht, -⟩ := dropEndHyphens_decomp (b.dropWhile (fun x => x == '-'))
  have hm : (b.dropWhile (fun x => x == '-')).head? = some c := by
    cases hd : dropEndHyphens (b.dropWhile (fun x => x == '-')) with
    | nil => rw [hd] at h; cases h
    | cons c0 s =>
      rw [hd] at h
      rw [List.head?_cons] at h
      injection h with h2
      rw [ht, hd, List.cons_append, List.head?_cons, h2]
  have h2 := head?_dropWhile_ne _ _ c hm
  simpa using h2

theorem sanitizeStripped_subset (alnum : Char → Bool) (name : List Char) :
    sanitizeStripped alnum name ⊆ joinHyphen (pyWords (name.map (keepChar alnum))) := by
  intro c hc
  simp only [sanitizeStripped, dropEndHyphens] at hc
  have h1 := List.mem_reverse.mp hc
  have h2 := List.dropWhile_subset _ h1
  have h3 := List.mem_reverse.mp h2
  exact List.dropWhile_subset _ h3

theorem base_chars (alnum : Char → Bool) (name : List Char) :
    ∀ c ∈ joinHyphen (pyWords (name.map (keepChar alnum))),
      pyIsSpace c = false ∧ (alnum c = true ∨ c = '-') := by
  intro c hc
  rcases joinHyphen_chars _ c hc with h | ⟨w, hw, hcw⟩
  · subst h
    exact ⟨by decide, Or.inr rfl⟩
  · refine wordsAux_chars (fun c => pyIsSpace c = false ∧ (alnum c = true ∨ c = '-'))
      _ [] (by simp) ?_ w hw c hcw
    intro c2 hc2 hsp
    refine ⟨hsp, ?_⟩
    rcases List.mem_map.mp hc2 with ⟨ch, _, hkeep⟩
    subst hkeep
    by_cases hcond : (alnum ch || ch == ' ' || ch == '-') = true
    · rw [keepChar, if_pos hcond] at hsp ⊢
      simp only [Bool.or_eq_true, beq_iff_eq] at hcond
      rcases hcond with (h1 | h1) | h1
      · exact Or.inl h1
      · rw [h1] at hsp
        simp [pyIsSpace] at hsp
      · exact Or.inr h1
    · rw [keepChar, if_neg hcond] at hsp
      simp [pyIsSpace] at hsp

theorem sanitize_chars (alnum : Char → Bool)
    (Hdl : ∀ c ∈ String.toList "download", alnum c = true) (name : List Char) :
    ∀ c ∈ sanitize_filename alnum name, pyIsSpace c = false ∧ (alnum c = true ∨ c = '-') := by
  intro c hc
  unfold sanitize_filename at hc
  split at hc
  · exact ⟨(by decide : ∀ c ∈ String.toList "download", pyIsSpace c = false) c hc,
      Or.inl (Hdl c hc)⟩
  · have hc2 := List.take_subset _ _ hc
    split at hc2
    · exact ⟨(by decide : ∀ c ∈ String.toList "download", pyIsSpace c = false) c hc2,
        Or.inl (Hdl c hc2)⟩
    · exact base_chars alnum name c (sanitizeStripped_subset alnum name hc2)

/-- C10: for every input, `sanitize_filename` emits no whitespace character:
space is kept during per-character cleaning, but every whitespace run is
then replaced by a single hyphen, so the result consists only of
alphanumeric characters and hyphens. -/
theorem C10_sanitize_no_whitespace (alnum : Char → Bool)
    (Hdl : ∀ c ∈ String.toList "download", alnum c = true) (name : List Char) :
    ∀ c ∈ sanitize_filename alnum name, pyIsSpace c = false ∧ (alnum c = true ∨ c = '-') :=
  sanitize_chars alnum Hdl name

theorem C10_witness :
    pyIsSpace 'a' = false ∧ (Char.isAlphanum 'a' = true ∨ 'a' = '-') :=
  C10_sanitize_no_whitespace Char.isAlphanum (by decide) (String.toList "a b") 'a' (by decide)

/-- Explicit input on which truncation reintroduces a trailing hyphen:
119 letters, a space, one more letter. -/
def trailingHyphenName : List Char :=
  List.replicate 119 'a' ++ [' ', 'b']

/-- C5 counterexample: `sanitize_filename` strips hyphens before truncating
to 120 characters, so on `trailingHyphenName` (whose hyphen-joined base is
121 characters long) the truncation cuts exactly at the join hyphen and the
output ends in a hyphen, contradicting the claim that the output never has
a trailing hyphen. -/
theorem C5_counterexample :
    (sanitize_filename Char.isAlphanum trailingHyphenName).getLast? = some '-' := by
  decide

/-- C5 (amended): the output of `sanitize_filename` contains only
alphanumerics and hyphens, has no leading hyphen, has length at most 120
and is never empty (falling back to "download"); it also has no trailing
hyphen whenever the hyphen-stripped base already fits in 120 characters —
when the base is longer, truncation may leave a trailing hyphen. -/
theorem C5_sanitize_shape (alnum : Char → Bool)
    (Hdl : ∀ c ∈ String.toList "download", alnum c = true) (name : List Char) :
    (∀ c ∈ sanitize_filename alnum name, alnum c = true ∨ c = '-') ∧
    (∀ c, (sanitize_filename alnum name).head? = some c → c ≠ '-') ∧
    (sanitize_filename alnum name).length ≤ 120 ∧
    sanitize_filename alnum name ≠ [] ∧
    ((sanitizeStripped alnum name).length ≤ 120 →
      ∀ c, (sanitize_filename alnum name).getLast? = some c → c ≠ '-') := by
  refine ⟨fun c hc => (sanitize_chars alnum Hdl name c hc).2, ?_, ?_, ?_, ?_⟩
  · intro c h
    unfold sanitize_filename at h
    split at h
    · rw [show String.toList "download" = 'd' :: String.toList "ownload" from rfl,
        List.head?_cons] at h
      injection h with h2
      subst h2
      decide
    · split at h
      · rw [show (String.toList "download").take 120 = 'd' :: String.toList "ownload" from rfl,
          List.head?_cons] at h
        injection h with h2
        subst h2
        decide
      · next hne =>
        cases hstr : sanitizeStripped alnum name with
        | nil => rw [hstr] at hne; simp at hne
        | cons c0 s =>
          rw [hstr, show (120 : Nat) = 119 + 1 from rfl, List.take_succ_cons,
            List.head?_cons] at h
          injection h with h2
          subst h2
          have := stripBoth_head (joinHyphen (pyWords (name.map (keepChar alnum)))) c0
          rw [show dropEndHyphens ((joinHyphen (pyWords (name.map (keepChar alnum)))).dropWhile
            (fun x => x == '-')) = sanitizeStripped alnum name from rfl, hstr,
            List.head?_cons] at this
          exact this rfl
  · unfold sanitize_filename
    split
    · decide
    · exact List.length_take_le _ _
  · unfold sanitize_filename
    split
    · decide
    · apply List.ne_nil_of_length_pos
      rw [List.length_take]
      refine lt_min (by norm_num) ?_
      rw [List.length_pos]
      split
      · decide
      · next hne =>
        intro hcon
        rw [hcon] at hne
        simp at hne
  · intro hlen c h
    unfold sanitize_filename at h
    split at h
    · rw [show (String.toList "download").getLast? = some 'd' from rfl] at h
      injection h with h2
      subst h2
      decide
    · split at h
      · rw [show ((String.toList "download").take 120).getLast? = some 'd' from rfl] at h
        injection h with h2
        subst h2
        decide
      · rw [List.take_of_length_le hlen] at h
        exact dropEndHyphens_getLast _ c h

theorem C5_witness :
    ('a' : Char) ≠ '-' ∧ ('b' : Char) ≠ '-' ∧
    (sanitize_filename Char.isAlphanum (String.toList "a b")).length ≤ 120 ∧
    sanitize_filename Char.isAlphanum (String.toList "a b") ≠ [] :=
  ⟨(C5_sanitize_shape Char.isAlphanum (by decide) (String.toList "a b")).2.1 'a' (by decide),
   (C5_sanitize_shape Char.isAlphanum (by decide) (String.toList "a b")).2.2.2.2
     (by decide) 'b' (by decide),
   (C5_sanitize_shape Char.isAlphanum (by decide) (String.toList "a b")).2.2.1,
   (C5_sanitize_shape Char.isAlphanum (by decide) (String.toList "a b")).2.2.2.1⟩

-- The metadata resolver: `pick_thumbnail` of app.py.

/-- One entry of the `thumbnails` list of a yt-dlp info dictionary.
Width and height model the integer pixel dimensions; a missing or null
field is `none` (the code maps both to 0 via `int(th.get(...) or 0)`). -/
structure Thumb where
  url : Option String
  width : Option Nat
  height : Option Nat
  deriving DecidableEq

/-- The fields of the yt-dlp info dictionary that `get_info` and
`pick_thumbnail` consult; `none` models a missing key or a `None` value. -/
structure InfoDict where
  title : Option String
  thumbnail : Option String
  thumbnails : Option (List Thumb)
  id : Option String
  deriving DecidableEq

/-- Python `u.startswith("//")`. -/
def startsWithSlashSlash (u : String) : Bool :=
  match u.toList with
  | '/' :: '/' :: _ => true
  | _ => false

/-- The inner `norm` helper of `pick_thumbnail`: make a scheme-relative
URL absolute with the secure scheme. -/
def normUrl (u : String) : String :=
  if startsWithSlashSlash u then "https:" ++ u else u

/-- Python truthiness of `th.get("url")`: present and non-empty. -/
def urlTruthy (th : Thumb) : Bool :=
  match th.url with
  | none => false
  | some u => !(u == "")

/-- The url of a thumbnail entry (meaningful when `urlTruthy th`). -/
def urlOf (th : Thumb) : String :=
  th.url.getD ""

/-- The area `int(th.get("width") or 0) * int(th.get("height") or 0)`. -/
def thumbArea (th : Thumb) : Nat :=
  th.width.getD 0 * th.height.getD 0

/-- The `for th in thumbs` loop of `pick_thumbnail`: running best url and
best area, starting from `(None, -1)`; entries with falsy urls are
skipped, and an entry replaces the best one only when its area is
strictly greater. -/
def bestLoop : List Thumb → Option String → Int → Option String × Int
  | [], best, bestA => (best, bestA)
  | th :: rest, best, bestA =>
    match th.url with
    | none => bestLoop rest best bestA
    | some u =>
      if u = "" then bestLoop rest best bestA
      else if (thumbArea th : Int) > bestA then
        bestLoop rest (some (normUrl u)) (thumbArea th)
      else bestLoop rest best bestA

/-- The `img.youtube.com` fallback of `pick_thumbnail`, used when no
thumbnail url was found but the video id is truthy. -/
def idFallback (info : InfoDict) : Option String :=
  match info.id with
  | some v =>
    if v = "" then none
    else some ("https://img.youtube.com/vi/" ++ v ++ "/hqdefault.jpg")
  | none => none

/-- The part of `pick_thumbnail` after the direct-field check: the loop
result if truthy, else the id fallback. -/
def afterDirect (info : InfoDict) : Option String :=
  match (bestLoop (info.thumbnails.getD []) none (-1)).1 with
  | some u => if u = "" then idFallback info else some u
  | none => idFallback info

/-- The `pick_thumbnail` function of app.py: direct field first, then the
largest-area candidate, then the id-based fallback, else `None`. -/
def pick_thumbnail (info : InfoDict) : Option String :=
  match info.thumbnail with
  | some t => if t = "" then afterDirect info else some (normUrl t)
  | none => afterDirect info

theorem normUrl_ne_empty (u : String) (h : u ≠ "") : normUrl u ≠ "" := by
  unfold normUrl
  split
  · intro hcon
    have hl := congrArg String.length hcon
    rw [String.length_append] at hl
    have h6 : ("https:" : String).length = 6 := rfl
    have h0 : ("" : String).length = 0 := rfl
    omega
  · exact h

theorem urlTruthy_some (th : Thumb) (h : urlTruthy th = true) :
    th.url = some (urlOf th) ∧ urlOf th ≠ "" := by
  unfold urlTruthy at h
  cases hu : th.url with
  | none => rw [hu] at h; cases h
  | some u =>
    rw [hu] at h
    simp only [Bool.not_eq_true', beq_eq_false_iff_ne, ne_eq] at h
    constructor
    · simp [urlOf, hu]
    · simpa [urlOf, hu] using h

theorem bestLoop_le (l : List Thumb) :
    ∀ (best : Option String) (bestA : Int),
      (∀ th ∈ l, urlTruthy th = true → (thumbArea th : Int) ≤ bestA) →
      bestLoop l best bestA = (best, bestA) := by
  induction l with
  | nil => intro best bestA _; rfl
  | cons th rest ih =>
    intro best bestA hle
    have htail : ∀ a ∈ rest, urlTruthy a = true → (thumbArea a : Int) ≤ bestA :=
      fun a ha => hle a (List.mem_cons_of_mem th ha)
    cases hu : th.url with
    | none =>
      simp only [bestLoop, hu]
      exact ih best bestA htail
    | some u =>
      by_cases hue : u = ""
      · simp only [bestLoop, hu, if_pos hue]
        exact ih best bestA htail
      · have hcand : urlTruthy th = true := by simp [urlTruthy, hu, hue]
        have harea := hle th (List.mem_cons_self th rest) hcand
        simp only [bestLoop, hu, if_neg hue, if_neg (not_lt.mpr harea)]
        exact ih best bestA htail

theorem bestLoop_max (l : List Thumb) :
    ∀ (best : Option String) (bestA : Int),
      (∃ th ∈ l, urlTruthy th = true ∧ bestA < (thumbArea th : Int)) →
      ∃ l1 th l2, l = l1 ++ th :: l2 ∧ urlTruthy th = true ∧
        bestLoop l best bestA = (some (normUrl (urlOf th)), (thumbArea th : Int)) ∧
        bestA < (thumbArea th : Int) ∧
        (∀ a ∈ l, urlTruthy a = true → thumbArea a ≤ thumbArea th) ∧
        (∀ a ∈ l1, urlTruthy a = true →
          ((thumbArea a : Int) ≤ bestA ∨ thumbArea a < thumbArea th)) := by
  induction l with
  | nil =>
    rintro best bestA ⟨th, hmem, _⟩
    simp at hmem
  | cons th0 rest ih =>
    intro best bestA hex
    cases hu : th0.url with
    | none =>
      have hfalse : urlTruthy th0 = false := by simp [urlTruthy, hu]
      obtain ⟨thw, hmem, hcw, hgw⟩ := hex
      have hmem2 : thw ∈ rest := by
        rcases List.mem_cons.mp hmem with h1 | h1
        · rw [h1, hfalse] at hcw; cases hcw
        · exact h1
      obtain ⟨l1, th, l2, hdec, hcand, hloop, hgt, hmax, hpre⟩ :=
        ih best bestA ⟨thw, hmem2, hcw, hgw⟩
      refine ⟨th0 :: l1, th, l2, by rw [hdec]; rfl, hcand, ?_, hgt, ?_, ?_⟩
      · simp only [bestLoop, hu]; exact hloop
      · intro a ha hta
        rcases List.mem_cons.mp ha with h1 | h1
        · rw [h1, hfalse] at hta; cases hta
        · exact hmax a h1 hta
      · intro a ha hta
        rcases List.mem_cons.mp ha with h1 | h1
        · rw [h1, hfalse] at hta; cases hta
        · exact hpre a h1 hta
    | some u =>
      by_cases hue : u = ""
      · have hfalse : urlTruthy th0 = false := by simp [urlTruthy, hu, hue]
        obtain ⟨thw, hmem, hcw, hgw⟩ := hex
        have hmem2 : thw ∈ rest := by
          rcases List.mem_cons.mp hmem with h1 | h1
          · rw [h1, hfalse] at hcw; cases hcw
          · exact h1
        obtain ⟨l1, th, l2, hdec, hcand, hloop, hgt, hmax, hpre⟩ :=
          ih best bestA ⟨thw, hmem2, hcw, hgw⟩
        refine ⟨th0 :: l1, th, l2, by rw [hdec]; rfl, hcand, ?_, hgt, ?_, ?_⟩
        · simp only [bestLoop, hu, if_pos hue]; exact hloop
        · intro a ha hta
          rcases List.mem_cons.mp ha with h1 | h1
          · rw [h1, hfalse] at hta; cases hta
          · exact hmax a h1 hta
        · intro a ha hta
          rcases List.mem_cons.mp ha with h1 | h1
          · rw [h1, hfalse] at hta; cases hta
          · exact hpre a h1 hta
      · have hcand0 : urlTruthy th0 = true := by simp [urlTruthy, hu, hue]
        have hu0 : urlOf th0 = u := by simp [urlOf, hu]
        by_cases hgt0 : bestA < (thumbArea th0 : Int)
        · by_cases hex2 : ∃ a ∈ rest, urlTruthy a = true ∧
              ((thumbArea th0 : Int) < (thumbArea a : Int))
          · obtain ⟨l1, th, l2, hdec, hcand, hloop, hgt, hmax, hpre⟩ :=
              ih (some (normUrl u)) (thumbArea th0) hex2
            refine ⟨th0 :: l1, th, l2, by rw [hdec]; rfl, hcand, ?_, ?_, ?_, ?_⟩
            · simp only [bestLoop, hu, if_neg hue, if_pos hgt0]
              exact hloop
            · exact lt_trans hgt0 hgt
            · intro a ha hta
              rcases List.mem_cons.mp ha with h1 | h1
              · rw [h1]; exact le_of_lt (Nat.cast_lt.mp hgt)
              · exact hmax a h1 hta
            · intro a ha hta
              rcases List.mem_cons.mp ha with h1 | h1
              · rw [h1]; exact Or.inr (Nat.cast_lt.mp hgt)
              · rcases hpre a h1 hta with h2 | h2
                · exact Or.inr (lt_of_le_of_lt (Nat.cast_le.mp h2) (Nat.cast_lt.mp hgt))
                · exact Or.inr h2
          · push_neg at hex2
            have hle : ∀ a ∈ rest, urlTruthy a = true →
                (thumbArea a : Int) ≤ (thumbArea th0 : Int) :=
              fun a ha hta => hex2 a ha hta
            refine ⟨[], th0, rest, rfl, hcand0, ?_, hgt0, ?_, by simp⟩
            · simp only [bestLoop, hu, if_neg hue, if_pos hgt0, hu0]
              exact bestLoop_le rest _ _ hle
            · intro a ha hta
              rcases List.mem_cons.mp ha with h1 | h1
              · rw [h1]
              · exact Nat.cast_le.mp (hle a h1 hta)
        · obtain ⟨thw, hmem, hcw, hgw⟩ := hex
          have hmem2 : thw ∈ rest := by
            rcases List.mem_cons.mp hmem with h1 | h1
            · rw [h1] at hgw; exact absurd hgw hgt0
            · exact h1
          obtain ⟨l1, th, l2, hdec, hcand, hloop, hgt, hmax, hpre⟩ :=
            ih best bestA ⟨thw, hmem2, hcw, hgw⟩
          refine ⟨th0 :: l1, th, l2, by rw [hdec]; rfl, hcand, ?_, hgt, ?_, ?_⟩
          · simp only [bestLoop, hu, if_neg hue, if_neg hgt0]
            exact hloop
          · intro a ha hta
            rcases List.mem_cons.mp ha with h1 | h1
            · rw [h1]
              exact Nat.cast_le.mp (le_of_lt (lt_of_le_of_lt (not_lt.mp hgt0) hgt))
            · exact hmax a h1 hta
          · intro a ha hta
            rcases List.mem_cons.mp ha with h1 | h1
            · rw [h1]; exact Or.inl (not_lt.mp hgt0)
            · exact hpre a h1 hta

/-- C6: thumbnail selection priority: a truthy direct `thumbnail` field
wins (normalized); otherwise the first candidate attaining the largest
area `width*height` among the truthy-url entries of `thumbnails` wins;
otherwise a conventional URL built from a truthy video id; otherwise
`none`.  In particular on candidates of sizes 100x100, 400x200, 50x900
the 400x200 entry is selected. -/
theorem C6_pick_thumbnail (info : InfoDict) :
    (∀ t, info.thumbnail = some t → t ≠ "" → pick_thumbnail info = some (normUrl t)) ∧
    ((info.thumbnail = none ∨ info.thumbnail = some "") →
      (∃ th ∈ info.thumbnails.getD [], urlTruthy th = true) →
      ∃ l1 th l2, info.thumbnails.getD [] = l1 ++ th :: l2 ∧ urlTruthy th = true ∧
        pick_thumbnail info = some (normUrl (urlOf th)) ∧
        (∀ a ∈ info.thumbnails.getD [], urlTruthy a = true → thumbArea a ≤ thumbArea th) ∧
        (∀ a ∈ l1, urlTruthy a = true → thumbArea a < thumbArea th)) ∧
    ((info.thumbnail = none ∨ info.thumbnail = some "") →
      (∀ th ∈ info.thumbnails.getD [], urlTruthy th = false) →
      ∀ v, info.id = some v → v ≠ "" →
        pick_thumbnail info = some ("https://img.youtube.com/vi/" ++ v ++ "/hqdefault.jpg")) ∧
    ((info.thumbnail = none ∨ info.thumbnail = some "") →
      (∀ th ∈ info.thumbnails.getD [], urlTruthy th = false) →
      (info.id = none ∨ info.id = some "") →
      pick_thumbnail info = none) ∧
    pick_thumbnail
      ⟨none, none,
        some [⟨some "u1", some 100, some 100⟩, ⟨some "u2", some 400, some 200⟩,
          ⟨some "u3", some 50, some 900⟩], none⟩ = some "u2" := by
  have hafter : ∀ h : info.thumbnail = none ∨ info.thumbnail = some "",
      pick_thumbnail info = afterDirect info := by
    intro h
    rcases h with h | h
    · simp [pick_thumbnail, h]
    · simp [pick_thumbnail, h]
  refine ⟨?_, ?_, ?_, ?_, by decide⟩
  · intro t ht htne
    simp [pick_thumbnail, ht, htne]
  · intro hdir hex
    have hex2 : ∃ th ∈ info.thumbnails.getD [], urlTruthy th = true ∧
        (-1 : Int) < (thumbArea th : Int) := by
      obtain ⟨th, hmem, hth⟩ := hex
      exact ⟨th, hmem, hth, lt_of_lt_of_le (by norm_num) (Int.natCast_nonneg _)⟩
    obtain ⟨l1, th, l2, hdec, hcand, hloop, _, hmax, hpre⟩ :=
      bestLoop_max (info.thumbnails.getD []) none (-1) hex2
    refine ⟨l1, th, l2, hdec, hcand, ?_, hmax, ?_⟩
    · rw [hafter hdir]
      unfold afterDirect
      rw [hloop]
      have hne := normUrl_ne_empty (urlOf th) (urlTruthy_some th hcand).2
      simp [hne]
    · intro a ha hta
      rcases hpre a ha hta with h1 | h1
      · exact absurd h1 (by
          have := Int.natCast_nonneg (thumbArea a)
          omega)
      · exact h1
  · intro hdir hall v hv hvne
    rw [hafter hdir]
    unfold afterDirect
    rw [bestLoop_le (info.thumbnails.getD []) none (-1)
      (fun th hth hta => absurd hta (by rw [hall th hth]; simp))]
    simp [idFallback, hv, hvne]
  · intro hdir hall hid
    rw [hafter hdir]
    unfold afterDirect
    rw [bestLoop_le (info.thumbnails.getD []) none (-1)
      (fun th hth hta => absurd hta (by rw [hall th hth]; simp))]
    rcases hid with h | h
    · simp [idFallback, h]
    · simp [idFallback, h]

theorem C6_witness :
    pick_thumbnail ⟨none, some "//cdn.example.com/x.jpg", none, none⟩ =
      some (normUrl "//cdn.example.com/x.jpg") ∧
    pick_thumbnail
      ⟨none, none,
        some [⟨some "u1", some 100, some 100⟩, ⟨some "u2", some 400, some 200⟩,
          ⟨some "u3", some 50, some 900⟩], none⟩ = some "u2" :=
  ⟨(C6_pick_thumbnail ⟨none, some "//cdn.example.com/x.jpg", none, none⟩).1
      "//cdn.example.com/x.jpg" rfl (by decide),
   (C6_pick_thumbnail ⟨none, none,
      some [⟨some "u1", some 100, some 100⟩, ⟨some "u2", some 400, some 200⟩,
        ⟨some "u3", some 50, some 900⟩], none⟩).2.2.2.2⟩

-- The `get_info` route.

/-- Outcome of the external engine's metadata call
`ydl.extract_info(url, download=False)`: an info dictionary, or an
exception carrying a message. -/
inductive InfoEngine
  | ok (info : InfoDict)
  | raise (message : String)
  deriving DecidableEq

/-- Responses of the `get_info` route: the 400 client error, the generic
500 server error, or the JSON payload with title and thumbnail. -/
inductive InfoResult
  | invalidInput (message : String)
  | metadataUnavailable (message : String)
  | ok (title : Option String) (thumbnail : Option String)
  deriving DecidableEq

/-- The `get_info` route of app.py.  `urlField` is `data.get("url")` of
the request body (absent body or key gives `none`, modelling
`request.get_json() or {}` and `data.get("url") or ""`). -/
def get_info (engine : InfoEngine) (urlField : Option String) : InfoResult :=
  let url := pyStripS (urlField.getD "")
  if url = "" then .invalidInput "No URL provided"
  else
    match engine with
    | .raise _ => .metadataUnavailable "Could not fetch video info"
    | .ok info => .ok info.title (pick_thumbnail info)

/-- C8: a metadata request whose URL is empty after trimming gets the
InvalidInput client error, and the response does not depend on the engine
at all — the engine is never consulted. -/
theorem C8_get_info_empty_url (engine : InfoEngine) (urlField : Option String)
    (h : pyStripS (urlField.getD "") = "") :
    get_info engine urlField = .invalidInput "No URL provided" ∧
    ∀ engine2, get_info engine urlField = get_info engine2 urlField := by
  constructor
  · simp [get_info, h]
  · intro engine2
    simp [get_info, h]

theorem C8_witness :
    get_info (InfoEngine.raise "network is down") (some "   ") =
      InfoResult.invalidInput "No URL provided" :=
  (C8_get_info_empty_url (InfoEngine.raise "network is down") (some "   ") (by decide)).1

/-- C9: every engine exception during a metadata lookup is caught and
mapped to the generic MetadataUnavailable server error with a fixed
message; the response does not depend on the exception's text, so no raw
engine error ever reaches the caller. -/
theorem C9_get_info_engine_failure (msg : String) (urlField : Option String)
    (h : pyStripS (urlField.getD "") ≠ "") :
    get_info (InfoEngine.raise msg) urlField =
      .metadataUnavailable "Could not fetch video info" ∧
    ∀ msg2, get_info (InfoEngine.raise msg) urlField =
      get_info (InfoEngine.raise msg2) urlField := by
  constructor
  · simp [get_info, h]
  · intro msg2
    simp [get_info, h]

theorem C9_witness :
    get_info (InfoEngine.raise "socket timeout") (some "https://example.com/v") =
      InfoResult.metadataUnavailable "Could not fetch video info" :=
  (C9_get_info_engine_failure "socket timeout" (some "https://example.com/v") (by decide)).1

-- The background job runner `run_download`.

/-- Normalized progress events published over the socket (the JSON
payloads emitted with `socketio.emit("progress", ...)`). -/
inductive Event
  | downloading (percent speed eta : String)
      (downloaded : Option Int) (total : Option Int)
  | finished
  | ready (url : String) (filename : String)
  | error (message : String)
  deriving DecidableEq

/-- The fields of a raw yt-dlp progress-hook dictionary that
`make_progress_hook` reads; `none` models a missing key or `None`. -/
structure HookEvent where
  status : Option String
  percent_str : Option String
  speed_str : Option String
  eta_str : Option String
  downloaded_bytes : Option Int
  total_bytes : Option Int
  total_bytes_estimate : Option Int
  deriving DecidableEq

/-- Python `a or b` on numeric fields: `None` and `0` are falsy. -/
def pyOrInt (a b : Option Int) : Option Int :=
  match a with
  | none => b
  | some v => if v = 0 then b else some v

/-- The hook built by `make_progress_hook`: translate a raw yt-dlp hook
dictionary into at most one normalized progress event ("downloading" or
"finished"; every other status is ignored). -/
def hookEmit (d : HookEvent) : Option Event :=
  match d.status with
  | some s =>
    if s = "downloading" then
      some (.downloading
        (stripAnsiS (pyStripS (d.percent_str.getD "")))
        (stripAnsiS (d.speed_str.getD ""))
        (stripAnsiS (d.eta_str.getD ""))
        d.downloaded_bytes
        (pyOrInt d.total_bytes d.total_bytes_estimate))
    else if s = "finished" then some .finished
    else none
  | none => none

/-- One entry of the token map `DOWNLOAD_MAP`. -/
structure Entry where
  path : String
  name : String
  deriving DecidableEq

/-- Observable actions of a background task, in program order: publishing
an event to a socket room, or registering a token in `DOWNLOAD_MAP`. -/
inductive JobAction
  | emit (room : String) (e : Event)
  | register (token : String) (entry : Entry)
  deriving DecidableEq

/-- Outcome of the engine call `ydl.extract_info(url, download=True)`
together with the hook events it fired along the way; on success,
`prepared` is the later result of `ydl.prepare_filename(info)`. -/
structure MediaInfo where
  title : Option String
  prepared : String
  deriving DecidableEq

/-- Engine oracle for a download job: normal return or an exception. -/
inductive EngineOutcome
  | ok (hooks : List HookEvent) (info : MediaInfo)
  | raise (hooks : List HookEvent) (message : String)
  deriving DecidableEq

/-- Last index of a character in a list (Python `str.rfind`). -/
def lastIdxOf (c : Char) (l : List Char) : Option Nat :=
  match List.findIdx? (fun x => x = c) l.reverse with
  | none => none
  | some j => some (l.length - 1 - j)

/-- The root part of `os.path.splitext`: cut at the last dot when it lies
after the last slash and the basename has a non-dot character before it
(so purely dotted basenames keep no extension). -/
def splitextRoot (l : List Char) : List Char :=
  match lastIdxOf '.' l with
  | none => l
  | some dotIdx =>
    let sepP1 :=
      match lastIdxOf '/' l with
      | none => 0
      | some s => s + 1
    if sepP1 ≤ dotIdx ∧ ((l.drop sepP1).take (dotIdx - sepP1)).any (fun x => x ≠ '.') then
      l.take dotIdx
    else l

/-- `os.path.splitext(p)[0]` on strings. -/
def splitextRootS (s : String) : String :=
  String.mk (splitextRoot s.toList)

/-- The definitive final path computed by `run_download` after the engine
returns: the prepared filename with its extension forced to match the
requested format (`option == "2"` gives `.mp3`, anything else `.mp4`). -/
def finalPathOf (option_ : String) (info : MediaInfo) : String :=
  splitextRootS info.prepared ++ (if option_ = "2" then ".mp3" else ".mp4")

/-- The browser-facing download name: the sanitized title (`info.get`
with default `"download"`) plus the extension of the chosen format. -/
def downloadNameOf (alnum : Char → Bool) (option_ : String) (info : MediaInfo) : String :=
  sanitize_filenameS alnum (info.title.getD "download") ++ "." ++
    (if option_ = "1" then "mp4" else "mp3")

/-- The actions of the progress hook during the engine call: each raw
hook event that translates to a normalized event is emitted to the job's
room. -/
def hookTrace (progress_id : String) (hooks : List HookEvent) : List JobAction :=
  (hooks.filterMap hookEmit).map (JobAction.emit progress_id)

/-- The `run_download` background task of app.py, as the ordered list of
its observable actions.  `fs` maps a path to the size of the file there
(`none` when `os.path.exists` is false), `token` is the fresh
`uuid4().hex` value, and `engine` is the oracle for the yt-dlp call. -/
def run_download (alnum : Char → Bool) (fs : String → Option Nat) (token : String)
    (engine : EngineOutcome) (option_ progress_id : String) : List JobAction :=
  let ext := if option_ = "1" then "mp4" else "mp3"
  match engine with
  | .raise hooks msg =>
    hookTrace progress_id hooks ++ [.emit progress_id (.error msg)]
  | .ok hooks info =>
    let final_path := finalPathOf option_ info
    match fs final_path with
    | none =>
      hookTrace progress_id hooks ++
        [.emit progress_id (.error "The downloaded file is empty")]
    | some sz =>
      if sz = 0 then
        hookTrace progress_id hooks ++
          [.emit progress_id (.error "The downloaded file is empty")]
      else
        let download_name :=
          sanitize_filenameS alnum (info.title.getD "download") ++ "." ++ ext
        hookTrace progress_id hooks ++
          [.register token ⟨final_path, download_name⟩,
           .emit progress_id (.ready ("/download/" ++ token) download_name)]

/-- Is this action the publication of a "ready" event? -/
def isReadyEmit : JobAction → Bool
  | .emit _ (.ready _ _) => true
  | _ => false

/-- Is this action the publication of an "error" event? -/
def isErrorEmit : JobAction → Bool
  | .emit _ (.error _) => true
  | _ => false

/-- Is this action a token registration in `DOWNLOAD_MAP`? -/
def isRegister : JobAction → Bool
  | .register _ _ => true
  | _ => false

/-- Is this action the publication of an "error" event with this exact
message? -/
def isErrorEmitMsg (m : String) : JobAction → Bool
  | .emit _ (.error m2) => m2 == m
  | _ => false

theorem hookEmit_shape (d : HookEvent) (e : Event) (h : hookEmit d = some e) :
    (∃ p s t dl tot, e = .downloading p s t dl tot) ∨ e = .finished := by
  unfold hookEmit at h
  split at h
  · split at h
    · injection h with h2
      exact Or.inl ⟨_, _, _, _, _, h2.symm⟩
    · split at h
      · injection h with h2
        exact Or.inr h2.symm
      · cases h
  · cases h

theorem hookTrace_mem (pid : String) (hooks : List HookEvent) (a : JobAction)
    (ha : a ∈ hookTrace pid hooks) :
    ∃ e, a = .emit pid e ∧ ((∃ p s t dl tot, e = .downloading p s t dl tot) ∨ e = .finished) := by
  unfold hookTrace at ha
  rcases List.mem_map.mp ha with ⟨e, he, hae⟩
  rcases List.mem_filterMap.mp he with ⟨d, _, hd⟩
  exact ⟨e, hae.symm, hookEmit_shape d e hd⟩

theorem hookTrace_filters (pid : String) (hooks : List HookEvent) :
    (hookTrace pid hooks).filter isReadyEmit = [] ∧
    (hookTrace pid hooks).filter isErrorEmit = [] ∧
    (hookTrace pid hooks).filter isRegister = [] ∧
    ∀ m, (hookTrace pid hooks).filter (isErrorEmitMsg m) = [] := by
  have hshape := hookTrace_mem pid hooks
  refine ⟨List.filter_eq_nil_iff.mpr ?_, List.filter_eq_nil_iff.mpr ?_,
    List.filter_eq_nil_iff.mpr ?_, fun m => List.filter_eq_nil_iff.mpr ?_⟩ <;>
    · intro a ha
      rcases hshape a ha with ⟨e, hae, he | he⟩
      · rcases he with ⟨p, s, t, dl, tot, he⟩
        rw [hae, he]
        simp [isReadyEmit, isErrorEmit, isRegister, isErrorEmitMsg]
      · rw [hae, he]
        simp [isReadyEmit, isErrorEmit, isRegister, isErrorEmitMsg]

/-- C3: when the engine call raises, the task publishes exactly one error
event (carrying the exception message) to the job's room, registers no
token, publishes no ready event, and its whole trace is the hook events
followed by that single error — one run, no retry. -/
theorem C3_engine_exception (alnum : Char → Bool) (fs : String → Option Nat)
    (token : String) (hooks : List HookEvent) (msg option_ progress_id : String) :
    run_download alnum fs token (.raise hooks msg) option_ progress_id =
      hookTrace progress_id hooks ++ [.emit progress_id (.error msg)] ∧
    (run_download alnum fs token (.raise hooks msg) option_ progress_id).filter isErrorEmit =
      [.emit progress_id (.error msg)] ∧
    (run_download alnum fs token (.raise hooks msg) option_ progress_id).filter isRegister = [] ∧
    (run_download alnum fs token (.raise hooks msg) option_ progress_id).filter isReadyEmit = [] ∧
    ∀ a ∈ run_download alnum fs token (.raise hooks msg) option_ progress_id,
      ∃ e, a = .emit progress_id e := by
  have heq : run_download alnum fs token (.raise hooks msg) option_ progress_id =
      hookTrace progress_id hooks ++ [.emit progress_id (.error msg)] := rfl
  obtain ⟨hr, he, hreg, -⟩ := hookTrace_filters progress_id hooks
  refine ⟨heq, ?_, ?_, ?_, ?_⟩
  · rw [heq, List.filter_append, he]
    simp [isErrorEmit]
  · rw [heq, List.filter_append, hreg]
    simp [isRegister]
  · rw [heq, List.filter_append, hr]
    simp [isReadyEmit]
  · intro a ha
    rw [heq] at ha
    rcases List.mem_append.mp ha with h1 | h1
    · rcases hookTrace_mem progress_id hooks a h1 with ⟨e, hae, _⟩
      exact ⟨e, hae⟩
    · simp at h1
      exact ⟨.error msg, h1⟩

/-- C4 counterexample: with the final file absent, the task publishes an
error event whose message is `"The downloaded file is empty"`; it
publishes no event with the message `"empty file"` claimed by the spec. -/
theorem C4_counterexample :
    (run_download Char.isAlphanum (fun _ => none) "tok"
      (.ok [] ⟨some "Title", "clip-ab12cd.webm"⟩) "2" "pid").filter
        (isErrorEmitMsg "empty file") = [] ∧
    run_download Char.isAlphanum (fun _ => none) "tok"
      (.ok [] ⟨some "Title", "clip-ab12cd.webm"⟩) "2" "pid" =
      [.emit "pid" (.error "The downloaded file is empty")] := by
  constructor
  · decide
  · decide

/-- C4 (amended): when the engine call returns but the computed final
file is missing or has size zero, the task publishes exactly one error
event, with message "The downloaded file is empty", and stops: no token
is registered and no ready event is published. -/
theorem C4_empty_file (alnum : Char → Bool) (fs : String → Option Nat)
    (token : String) (hooks : List HookEvent) (info : MediaInfo)
    (option_ progress_id : String)
    (h : fs (finalPathOf option_ info) = none ∨ fs (finalPathOf option_ info) = some 0) :
    run_download alnum fs token (.ok hooks info) option_ progress_id =
      hookTrace progress_id hooks ++
        [.emit progress_id (.error "The downloaded file is empty")] ∧
    (run_download alnum fs token (.ok hooks info) option_ progress_id).filter isErrorEmit =
      [.emit progress_id (.error "The downloaded file is empty")] ∧
    (run_download alnum fs token (.ok hooks info) option_ progress_id).filter isRegister = [] ∧
    (run_download alnum fs token (.ok hooks info) option_ progress_id).filter isReadyEmit
      = [] := by
  have heq : run_download alnum fs token (.ok hooks info) option_ progress_id =
      hookTrace progress_id hooks ++
        [.emit progress_id (.error "The downloaded file is empty")] := by
    rcases h with h | h
    · simp [run_download, h]
    · simp [run_download, h]
  obtain ⟨hr, he, hreg, -⟩ := hookTrace_filters progress_id hooks
  refine ⟨heq, ?_, ?_, ?_⟩
  · rw [heq, List.filter_append, he]
    simp [isErrorEmit]
  · rw [heq, List.filter_append, hreg]
    simp [isRegister]
  · rw [heq, List.filter_append, hr]
    simp [isReadyEmit]

theorem C4_witness :
    run_download Char.isAlphanum (fun _ => none) "tok"
      (.ok [] ⟨some "Title", "clip-ab12cd.webm"⟩) "2" "pid" =
      hookTrace "pid" [] ++ [.emit "pid" (.error "The downloaded file is empty")] :=
  (C4_empty_file Char.isAlphanum (fun _ => none) "tok" []
    ⟨some "Title", "clip-ab12cd.webm"⟩ "2" "pid" (Or.inl rfl)).1

/-- C2: an audio job whose engine call returns and whose final file
exists with nonzero size registers the token against the final path and
download name, then (and only then) publishes a single ready event to the
job's room referencing `/download/{token}` and the download name, which
ends in the audio extension ".mp3". -/
theorem C2_audio_success (alnum : Char → Bool) (fs : String → Option Nat)
    (token : String) (hooks : List HookEvent) (info : MediaInfo)
    (progress_id : String) (sz : Nat)
    (hfs : fs (finalPathOf "2" info) = some sz) (hsz : sz ≠ 0) :
    run_download alnum fs token (.ok hooks info) "2" progress_id =
      hookTrace progress_id hooks ++
        [.register token ⟨finalPathOf "2" info, downloadNameOf alnum "2" info⟩,
         .emit progress_id
           (.ready ("/download/" ++ token) (downloadNameOf alnum "2" info))] ∧
    (run_download alnum fs token (.ok hooks info) "2" progress_id).filter isReadyEmit =
      [.emit progress_id
        (.ready ("/download/" ++ token) (downloadNameOf alnum "2" info))] ∧
    (run_download alnum fs token (.ok hooks info) "2" progress_id).filter isRegister =
      [.register token ⟨finalPathOf "2" info, downloadNameOf alnum "2" info⟩] ∧
    ∃ stem, downloadNameOf alnum "2" info = stem ++ ".mp3" := by
  have heq : run_download alnum fs token (.ok hooks info) "2" progress_id =
      hookTrace progress_id hooks ++
        [.register token ⟨finalPathOf "2" info, downloadNameOf alnum "2" info⟩,
         .emit progress_id
           (.ready ("/download/" ++ token) (downloadNameOf alnum "2" info))] := by
    simp [run_download, hfs, hsz, downloadNameOf]
  obtain ⟨hr, -, hreg, -⟩ := hookTrace_filters progress_id hooks
  refine ⟨heq, ?_, ?_, ?_⟩
  · rw [heq, List.filter_append, hr]
    simp [isReadyEmit, isRegister]
  · rw [heq, List.filter_append, hreg]
    simp [isReadyEmit, isRegister]
  · refine ⟨sanitize_filenameS alnum (info.title.getD "download"), ?_⟩
    show sanitize_filenameS alnum (info.title.getD "download") ++ "." ++
      (if ("2" : String) = "1" then "mp4" else "mp3") = _
    rw [if_neg (by decide), String.append_assoc]
    rfl

theorem C2_witness :
    run_download Char.isAlphanum
      (fun p => if p = "My Song-ab12cd.mp3" then some 1024 else none) "tok"
      (.ok [] ⟨some "My Song", "My Song-ab12cd.webm"⟩) "2" "pid" =
      hookTrace "pid" [] ++
        [.register "tok" ⟨finalPathOf "2" ⟨some "My Song", "My Song-ab12cd.webm"⟩,
            downloadNameOf Char.isAlphanum "2" ⟨some "My Song", "My Song-ab12cd.webm"⟩⟩,
         .emit "pid" (.ready ("/download/" ++ "tok")
            (downloadNameOf Char.isAlphanum "2" ⟨some "My Song", "My Song-ab12cd.webm"⟩))] :=
  (C2_audio_success Char.isAlphanum
    (fun p => if p = "My Song-ab12cd.mp3" then some 1024 else none) "tok" []
    ⟨some "My Song", "My Song-ab12cd.webm"⟩ "pid" 1024 (by decide) (by decide)).1

-- The token-gated artifact store: the `/download/<token>` route.

/-- Responses of the `/download/<token>` route: the 404 for an unknown or
consumed token, the 404 for a valid token whose file is gone, or the
streamed file attachment. -/
inductive DlResult
  | notFound
  | fileNotFound
  | sent (path : String) (name : String)
  deriving DecidableEq

/-- The `download_file` route of app.py: `DOWNLOAD_MAP.pop(token, None)`
removes the entry in the same step that reads it, before the existence
check; the updated map is returned alongside the response.  `fsE` is the
`os.path.exists` oracle. -/
def download_file (m : String → Option Entry) (fsE : String → Bool) (token : String) :
    DlResult × (String → Option Entry) :=
  match m token with
  | none => (.notFound, m)
  | some info =>
    let m2 : String → Option Entry := fun t => if t = token then none else m t
    if fsE info.path then (.sent info.path info.name, m2) else (.fileNotFound, m2)

/-- A sequence of retrievals against the store, threading the map; the
result list pairs each requested token with its response.  Any
interleaving of atomic `pop` steps by concurrent clients is some such
sequence. -/
def runRetrievals (fsE : String → Bool) :
    (String → Option Entry) → List String → List (String × DlResult)
  | _, [] => []
  | m, t :: ts =>
    (t, (download_file m fsE t).1) :: runRetrievals fsE (download_file m fsE t).2 ts

/-- Is this response a successful retrieval? -/
def isHit : DlResult → Bool
  | .sent _ _ => true
  | _ => false

/-- Number of successful retrievals of a given token in a result list. -/
def countHits (rs : List (String × DlResult)) (t : String) : Nat :=
  (rs.filter (fun p => p.1 == t && isHit p.2)).length

theorem download_post (m : String → Option Entry) (fsE : String → Bool) (t : String) :
    (download_file m fsE t).2 t = none := by
  unfold download_file
  split
  · next hm => exact hm
  · split
    · simp
    · simp

theorem download_keep_none (m : String → Option Entry) (fsE : String → Bool)
    (t t2 : String) (h : m t = none) : (download_file m fsE t2).2 t = none := by
  unfold download_file
  split
  · exact h
  · split
    · by_cases ht : t = t2 <;> simp [ht, h]
    · by_cases ht : t = t2 <;> simp [ht, h]

theorem download_notFound (m : String → Option Entry) (fsE : String → Bool)
    (t : String) (h : m t = none) : (download_file m fsE t).1 = .notFound := by
  unfold download_file
  split
  · rfl
  · next info hm => rw [h] at hm; cases hm

theorem runRetrievals_none (fsE : String → Bool) :
    ∀ (m : String → Option Entry) (ts : List String) (t : String),
      m t = none → ∀ p ∈ runRetrievals fsE m ts, p.1 = t → p.2 = .notFound := by
  intro m ts
  induction ts generalizing m with
  | nil => intro t _ p hp; simp [runRetrievals] at hp
  | cons t0 ts ih =>
    intro t h p hp hpt
    rcases List.mem_cons.mp hp with h1 | h1
    · subst h1
      dsimp at hpt ⊢
      rw [hpt]
      exact download_notFound m fsE t h
    · exact ih (download_file m fsE t0).2 t (download_keep_none m fsE t t0 h) p h1 hpt

theorem countHits_zero (fsE : String → Bool) (m : String → Option Entry)
    (ts : List String) (t : String) (h : m t = none) :
    countHits (runRetrievals fsE m ts) t = 0 := by
  unfold countHits
  have hnil : (runRetrievals fsE m ts).filter (fun p => p.1 == t && isHit p.2) = [] := by
    apply List.filter_eq_nil_iff.mpr
    intro p hp hcon
    simp only [Bool.and_eq_true, beq_iff_eq] at hcon
    have hnf := runRetrievals_none fsE m ts t h p hp hcon.1
    rw [hnf] at hcon
    exact absurd hcon.2 (by simp [isHit])
  rw [hnil]
  rfl

theorem countHits_le_one (fsE : String → Bool) :
    ∀ (m : String → Option Entry) (ts : List String) (t : String),
      countHits (runRetrievals fsE m ts) t ≤ 1 := by
  intro m ts
  induction ts generalizing m with
  | nil =>
    intro t
    simp [runRetrievals, countHits]
  | cons t0 ts ih =>
    intro t
    have hrw : runRetrievals fsE m (t0 :: ts) =
        (t0, (download_file m fsE t0).1) ::
          runRetrievals fsE (download_file m fsE t0).2 ts := rfl
    unfold countHits
    rw [hrw, List.filter_cons]
    by_cases ht : t0 = t
    · have hpost : (download_file m fsE t0).2 t = none := by
        rw [← ht]
        exact download_post m fsE t0
      have htail : ((runRetrievals fsE (download_file m fsE t0).2 ts).filter
          (fun p => p.1 == t && isHit p.2)).length = 0 := by
        have hz := countHits_zero fsE (download_file m fsE t0).2 ts t hpost
        unfold countHits at hz
        exact hz
      split
      · simp only [List.length_cons]
        omega
      · omega
    · have hcond : ((t0, (download_file m fsE t0).1).1 == t &&
          isHit (download_file m fsE t0).1) = false := by
        simp [ht]
      rw [hcond]
      simp only [Bool.false_eq_true, if_false]
      have hih := ih (download_file m fsE t0).2 t
      unfold countHits at hih
      exact hih

/-- C1: tokens are one-shot.  Across any sequence of retrievals at most
one succeeds per token; the entry is removed by the very retrieval that
reads it, before and regardless of the file-existence check, so a
retrieval right after any retrieval of the same token, and any retrieval
of an unregistered token, answers NotFound — as does every retrieval of a
token absent from the map, anywhere in a sequence. -/
theorem C1_token_single_use (fsE : String → Bool) (m : String → Option Entry)
    (ts : List String) (t : String) :
    countHits (runRetrievals fsE m ts) t ≤ 1 ∧
    (download_file m fsE t).2 t = none ∧
    (m t = none → (download_file m fsE t).1 = .notFound) ∧
    (∀ fsE2, (download_file ((download_file m fsE t).2) fsE2 t).1 = .notFound) ∧
    (m t = none → ∀ p ∈ runRetrievals fsE m ts, p.1 = t → p.2 = .notFound) := by
  refine ⟨countHits_le_one fsE m ts t, download_post m fsE t,
    download_notFound m fsE t, ?_, ?_⟩
  · intro fsE2
    exact download_notFound _ fsE2 t (download_post m fsE t)
  · intro h
    exact runRetrievals_none fsE m ts t h

theorem C1_witness :
    countHits (runRetrievals (fun _ => false)
      (fun s => if s = "tok" then some (⟨"file.mp3", "song.mp3"⟩ : Entry) else none)
      ["tok", "tok"]) "tok" ≤ 1 ∧
    (download_file (fun _ => (none : Option Entry)) (fun _ => false) "tok").1 =
      DlResult.notFound :=
  ⟨(C1_token_single_use (fun _ => false)
      (fun s => if s = "tok" then some (⟨"file.mp3", "song.mp3"⟩ : Entry) else none)
      ["tok", "tok"] "tok").1,
   (C1_token_single_use (fun _ => false) (fun _ => none) [] "tok").2.2.1 rfl⟩

-- The `start_download` route.

/-- Outcome of the `start_download` route: either the 400 client error
(no background thread is started), or the immediate `{"started": true}`
acknowledgment together with the argument triple `(url, option,
progress_id)` handed to the freshly started background thread. -/
inductive StartOutcome
  | invalid (message : String)
  | started (url option_ progress_id : String)
  deriving DecidableEq

/-- The `start_download` route of app.py: trim the three form fields
(each `none` models a missing field, via `request.form.get(...) or ""`),
validate them, and only on valid input start the background task before
returning at once. -/
def start_download (urlF optionF pidF : Option String) : StartOutcome :=
  let url := pyStripS (urlF.getD "")
  let option_ := pyStripS (optionF.getD "")
  let progress_id := pyStripS (pidF.getD "")
  if url = "" ∨ (option_ ≠ "1" ∧ option_ ≠ "2") ∨ progress_id = "" then
    .invalid "Missing or invalid parameters"
  else .started url option_ progress_id

/-- C7: the submit route validates before doing any work: an empty
trimmed URL, a format option outside the two valid values, or an empty
trimmed channel id yields the 400 error and no background task; valid
input starts exactly one background task with the trimmed arguments and
acknowledges immediately. -/
theorem C7_start_download_validation (urlF optionF pidF : Option String) :
    ((pyStripS (urlF.getD "") = "" ∨
        (pyStripS (optionF.getD "") ≠ "1" ∧ pyStripS (optionF.getD "") ≠ "2") ∨
        pyStripS (pidF.getD "") = "") →
      start_download urlF optionF pidF = .invalid "Missing or invalid parameters") ∧
    (pyStripS (urlF.getD "") ≠ "" →
      (pyStripS (optionF.getD "") = "1" ∨ pyStripS (optionF.getD "") = "2") →
      pyStripS (pidF.getD "") ≠ "" →
      start_download urlF optionF pidF =
        .started (pyStripS (urlF.getD "")) (pyStripS (optionF.getD ""))
          (pyStripS (pidF.getD ""))) := by
  constructor
  · intro h
    simp only [start_download]
    rw [if_pos h]
  · intro hu ho hp
    simp only [start_download]
    rw [if_neg ?_]
    push_neg
    refine ⟨hu, fun h1 => ?_, hp⟩
    rcases ho with h | h
    · exact absurd h h1
    · exact h

theorem C7_witness :
    start_download (some " https://example.com/v ") (some "2") (some "room-1") =
      StartOutcome.started "https://example.com/v" "2" "room-1" ∧
    start_download none none none = StartOutcome.invalid "Missing or invalid parameters" := by
  constructor
  · have h := (C7_start_download_validation
      (some " https://example.com/v ") (some "2") (some "room-1")).2
      (by decide) (by decide) (by decide)
    rw [h]
    decide
  · exact (C7_start_download_validation none none none).1 (by decide)

theorem C3_witness :
    run_download Char.isAlphanum (fun _ => none) "tok" (.raise [] "boom") "2" "pid" =
      hookTrace "pid" [] ++ [.emit "pid" (.error "boom")] ∧
    ∃ e, JobAction.emit "pid" (Event.error "boom") = JobAction.emit "pid" e :=
  ⟨(C3_engine_exception Char.isAlphanum (fun _ => none) "tok" [] "boom" "2" "pid").1,
   (C3_engine_exception Char.isAlphanum (fun _ => none) "tok" [] "boom" "2" "pid").2.2.2.2
     (JobAction.emit "pid" (Event.error "boom")) (by decide)⟩
